import Mathlib

/-!
Verification development for the survey app's task-pool construction and
per-rater sampling/assignment engine (`app.py`).  The Python code is shallowly
embedded: per-provider manifest rows become `ManifestRow`, the three
process-wide pools become `Pools`, plan sampling and the per-rater session
state machine become pure functions on explicit state, and the stateful
submission / admin routes become state transformers.  Randomness
(`random.sample` / `random.shuffle`) is modelled by an explicit permutation
parameter.
-/

/-- One normalized manifest row (`ManifestRow` dataclass in `app.py`).
`image_path` is kept as a plain string; the existence post-filter happens in
`read_latest_manifest`, before pool construction, so pool building never looks
at the file system. -/
structure ManifestRow where
  provider : String
  model : String
  run_id : String
  category_id : String
  prompt_id : String
  seed_label : Int
  image_path : String
  prompt_text : String
  has_text : Bool
  expected_texts : String
  no_people : Bool
  status : String
  w : Option Int
  h : Option Int
  completed_utc : String
deriving Repr, DecidableEq

/-- Module A task key: `(provider, category_id, prompt_id, seed_label)`. -/
abbrev KeyA := String × String × String × Int

/-- Module B task key (`ComparisonSetKey`): `(category_id, prompt_id, seed_label)`. -/
abbrev KeyB := String × String × Int

/-- Module C task key (`DiversitySetKey`): `(provider, category_id, prompt_id)`. -/
abbrev KeyC := String × String × String

/-- One Module C pool entry: `(provider, category_id, prompt_id, ordered rows)`,
exactly the tuples stored in `C_SETS`. -/
abbrev CEntry := String × String × String × List ManifestRow

/-- Key of a row for Module A (`mark_seen_a` / the unseen filter in
`sample_plan_for_rater`). -/
def keyA (r : ManifestRow) : KeyA :=
  (r.provider, r.category_id, r.prompt_id, r.seed_label)

/-- Key of a row for Module B (`key = (r.category_id, r.prompt_id, r.seed_label)`
in `build_tasks`). -/
def keyB (r : ManifestRow) : KeyB :=
  (r.category_id, r.prompt_id, r.seed_label)

/-- Key of a `C_SETS` entry. -/
def cKey (e : CEntry) : KeyC :=
  (e.1, e.2.1, e.2.2.1)

/-- Python's string `<`: code-point lexicographic order, embedded as the
order on the character lists (Lean's `List Char` linear order compares `Char`s
by code point, exactly as Python compares strings). -/
def tsLt (a b : String) : Prop :=
  a.toList < b.toList

instance : ∀ a b, Decidable (tsLt a b) :=
  fun a b => inferInstanceAs (Decidable (a.toList < b.toList))

/-- One step of the per-provider "latest entry per key" dictionary build in
`build_tasks` (`if not keep or (r.completed_utc > keep.completed_utc): d[key] = r`),
projected to a single key `k`. -/
def pickLatest (k : KeyB) (acc : Option ManifestRow) (r : ManifestRow) : Option ManifestRow :=
  if keyB r = k then
    match acc with
    | none => some r
    | some keep =>
      if tsLt keep.completed_utc r.completed_utc then some r else some keep
  else acc

/-- The per-provider index `idx[prov]` of `build_tasks`, projected to key `k`:
the value the dictionary holds at `k` after scanning `rows` left to right. -/
def indexB (rows : List ManifestRow) (k : KeyB) : Option ManifestRow :=
  rows.foldl (pickLatest k) none

/-- Distinct Module B keys occurring in a provider's rows (`idx[prov].keys()`). -/
def keysOfRows (rows : List ManifestRow) : List KeyB :=
  (rows.map keyB).dedup

/-- `B_SETS` of `build_tasks`: the keys present in every provider's index
(`keys_all`, an intersection — computed by filtering the first provider's
keys), each mapped to one entry per configured provider, in provider order.
With no configured providers `keys_all` stays `None` and `B_SETS` is empty. -/
def mkBSets (perProv : List (String × List ManifestRow)) :
    List (KeyB × List (String × ManifestRow)) :=
  match perProv with
  | [] => []
  | p0 :: _ =>
    ((keysOfRows p0.2).filter
        (fun k => perProv.all (fun p => (indexB p.2 k).isSome))).map
      (fun k => (k, perProv.filterMap
        (fun p => (indexB p.2 k).map (fun r => (p.1, r)))))

/-- The last row of `rows` with the given `(category_id, prompt_id, seed_label)`:
the value `group[(cat,prompt)][seed]` holds after the grouping loop in
`build_tasks` (later rows overwrite earlier ones). -/
def lastWith (rows : List ManifestRow) (cat prompt : String) (s : Int) :
    Option ManifestRow :=
  (rows.filter
    (fun r => r.category_id == cat && r.prompt_id == prompt && r.seed_label == s)).getLast?

/-- Distinct `(category_id, prompt_id)` group keys of a provider's rows. -/
def groupKeysOf (rows : List ManifestRow) : List (String × String) :=
  (rows.map (fun r => (r.category_id, r.prompt_id))).dedup

/-- A placeholder row, only ever produced behind an `isSome` guard. -/
def defaultRow : ManifestRow :=
  { provider := "", model := "", run_id := "", category_id := "", prompt_id := "",
    seed_label := 0, image_path := "", prompt_text := "", has_text := false,
    expected_texts := "", no_people := false, status := "", w := none, h := none,
    completed_utc := "" }

/-- The `C_SETS` entries contributed by one provider in `build_tasks`: each
`(cat,prompt)` group that has a row for every configured seed label yields one
entry whose rows are ordered by the configured seed-label sequence. -/
def cSetsFor (prov : String) (rows : List ManifestRow) (seeds : List Int) :
    List CEntry :=
  (groupKeysOf rows).filterMap (fun gp =>
    if seeds.all (fun s => (lastWith rows gp.1 gp.2 s).isSome) then
      some (prov, gp.1, gp.2,
        seeds.map (fun s => (lastWith rows gp.1 gp.2 s).getD defaultRow))
    else none)

/-- `C_SETS` of `build_tasks`: concatenation over providers in order. -/
def mkCSets (perProv : List (String × List ManifestRow)) (seeds : List Int) :
    List CEntry :=
  (perProv.map (fun p => cSetsFor p.1 p.2 seeds)).flatten

/-- The three process-wide pools (`ALL_A_IMAGES`, `B_SETS`, `C_SETS`). -/
structure Pools where
  allA : List ManifestRow
  bSets : List (KeyB × List (String × ManifestRow))
  cSets : List CEntry
deriving Repr, DecidableEq

/-- The successful path of `build_tasks`, from the per-provider row lists:
`ALL_A_IMAGES` is the concatenation of all providers' rows in provider order,
`B_SETS` and `C_SETS` as above. -/
def buildPools (perProv : List (String × List ManifestRow)) (seeds : List Int) :
    Pools :=
  { allA := (perProv.map Prod.snd).flatten
    bSets := mkBSets perProv
    cSets := mkCSets perProv seeds }

/-- The provider loop of `build_tasks` with a fallible manifest reader.
`ALL_A_IMAGES` has already been reset to `[]` when the loop starts; a reader
failure propagates out of the loop with the rows accumulated so far. -/
def buildLoop (readM : String → Except String (List ManifestRow)) :
    List String → List ManifestRow → List (String × List ManifestRow) →
    List ManifestRow × List (String × List ManifestRow) × Option String
  | [], accA, accP => (accA, accP, none)
  | p :: ps, accA, accP =>
    match readM p with
    | .error e => (accA, accP, some e)
    | .ok rows => buildLoop readM ps (accA ++ rows) (accP ++ [(p, rows)])

/-- `build_tasks` as invoked by `admin_reload`, with a fallible manifest
reader.  The globals are mutated in place: `ALL_A_IMAGES` is cleared first and
extended per provider, while `B_SETS` and `C_SETS` are only reassigned after
the provider loop finishes.  An exception partway therefore leaves
`ALL_A_IMAGES` holding only the providers processed so far and keeps the old
`B_SETS`/`C_SETS`; `admin_reload` catches it and reports `{ok: False}`. -/
def buildTasksFallible (readM : String → Except String (List ManifestRow))
    (providers : List String) (seeds : List Int) (old : Pools) :
    Pools × Option String :=
  match buildLoop readM providers [] [] with
  | (accA, _, some e) =>
    ({ allA := accA, bSets := old.bSets, cSets := old.cSets }, some e)
  | (_, accP, none) => (buildPools accP seeds, none)

/-! ## Image-path normalization (`_normalize_image_path`) -/

/-- Python `str.strip()`: remove leading and trailing whitespace. -/
def pyStrip (s : String) : String :=
  String.mk (((s.toList.dropWhile Char.isWhitespace).reverse.dropWhile
    Char.isWhitespace).reverse)

/-- `"\\" -> "/"` replacement (`.replace("\\", "/")`; the pattern is a single
character, so this is a character map). -/
def backslashToSlash (s : String) : String :=
  String.mk (s.toList.map (fun c => if c = '\\' then '/' else c))

/-- Split a character list on `/`, keeping empty segments (Python
`str.split("/")`). -/
def splitSlash : List Char → List (List Char)
  | [] => [[]]
  | c :: rest =>
    match splitSlash rest with
    | [] => [[c]]
    | s :: ss => if c = '/' then [] :: s :: ss else (c :: s) :: ss

/-- Join segments back with `/` separators. -/
def joinSlash : List (List Char) → List Char
  | [] => []
  | [s] => s
  | s :: rest => s ++ '/' :: joinSlash rest

/-- Whether the character list begins with `/`. -/
def startsWithSlash (l : List Char) : Bool :=
  match l with
  | [] => false
  | c :: _ => c = '/'

/-- Lowercase every character (Python `str.lower()` on the ASCII names in
play). -/
def lowerChars (l : List Char) : List Char :=
  l.map Char.toLower

/-- `PurePath(p).name`: the last nonempty `/`-separated component. -/
def pathNameChars (l : List Char) : List Char :=
  ((((splitSlash l).filter (fun seg => seg ≠ [])).getLast?).getD [])

/-- `Path(root).name` as a string. -/
def pathName (root : String) : String :=
  String.mk (pathNameChars root.toList)

/-- `Path(root) / rel` rendered as a string: an absolute right operand
replaces the root, an empty one leaves it unchanged. -/
def pathJoin (root rel : String) : String :=
  if startsWithSlash rel.toList then rel
  else if rel = "" then root
  else root ++ "/" ++ rel

/-- Python `s.find(pat)` on character lists: index of the first occurrence of
`pat` as a contiguous sublist, `none` when absent. -/
def findSub : List Char → List Char → Option Nat
  | [], pat => if pat.isPrefixOf ([] : List Char) then some 0 else none
  | c :: rest, pat =>
    if pat.isPrefixOf (c :: rest) then some 0
    else (findSub rest pat).map (· + 1)

/-- `_normalize_image_path(path_str, provider_root)`: strip and
slash-normalize the manifest path, then (a) re-root after the first
`/<provider>/` occurrence in the lowercased path, (b) else re-root from the
first `/images/` occurrence, (c) else join a path that does not start with `/`
to the provider root, (d) else put the bare filename under
`<provider root>/images/`. -/
def normalizeImagePath (pathStr providerRoot : String) : String :=
  let s : List Char := (backslashToSlash (pyStrip pathStr)).toList
  let prov : List Char := lowerChars (pathNameChars providerRoot.toList)
  let sl : List Char := lowerChars s
  match findSub sl ('/' :: prov ++ ['/']) with
  | some m1 => pathJoin providerRoot (String.mk (s.drop (m1 + prov.length + 2)))
  | none =>
    match findSub sl ("/images/").toList with
    | some m2 => pathJoin providerRoot (String.mk (s.drop (m2 + 1)))
    | none =>
      if startsWithSlash s then
        pathJoin providerRoot (String.mk (("images/").toList ++ pathNameChars s))
      else pathJoin providerRoot (String.mk s)

/-- Index of the first element of `l` satisfying `p`. -/
def firstIdxWhere (p : α → Bool) : List α → Option Nat
  | [] => none
  | a :: rest =>
    if p a then some 0 else (firstIdxWhere p rest).map (· + 1)

/-- Modelled from the claim's words (C7): normalization by *path segments* —
(a) if any `/`-separated segment equals the provider directory's name
(case-insensitively), re-root the remainder after the first such segment;
(b) else if any segment is `images`, re-root the trailing part from the first
such segment; (c) else join a relative path to the provider root; (d) else
place the bare filename under `<provider root>/images/`. -/
def normalizeImagePathClaimed (pathStr providerRoot : String) : String :=
  let s : List Char := (backslashToSlash (pyStrip pathStr)).toList
  let prov : List Char := lowerChars (pathNameChars providerRoot.toList)
  let segs : List (List Char) := splitSlash s
  match firstIdxWhere (fun seg => lowerChars seg == prov) segs with
  | some i => pathJoin providerRoot (String.mk (joinSlash (segs.drop (i + 1))))
  | none =>
    match firstIdxWhere (fun seg => seg == ("images").toList) segs with
    | some j => pathJoin providerRoot (String.mk (joinSlash (segs.drop j)))
    | none =>
      if startsWithSlash s then
        pathJoin providerRoot (String.mk (("images/").toList ++ pathNameChars s))
      else pathJoin providerRoot (String.mk s)

/-- First index `i` such that `pat` occurs in `l` at position `i`, found by
scanning all positions `0 .. l.length`.  Used to state the amended C7 rules
independently of `findSub`'s recursion. -/
def firstOccurrence (l pat : List Char) : Option Nat :=
  (List.range (l.length + 1)).find? (fun i => pat.isPrefixOf (l.drop i))

/-- The amended C7 rules: like `normalizeImagePathClaimed`, but rules (a) and
(b) fire only on an *interior* occurrence — the substring `/<name>/` with a
separator character on both sides — taking the first such occurrence. -/
def normalizeImagePathInterior (pathStr providerRoot : String) : String :=
  let s : List Char := (backslashToSlash (pyStrip pathStr)).toList
  let prov : List Char := lowerChars (pathNameChars providerRoot.toList)
  let sl : List Char := lowerChars s
  match firstOccurrence sl ('/' :: prov ++ ['/']) with
  | some m1 => pathJoin providerRoot (String.mk (s.drop (m1 + prov.length + 2)))
  | none =>
    match firstOccurrence sl ("/images/").toList with
    | some m2 => pathJoin providerRoot (String.mk (s.drop (m2 + 1)))
    | none =>
      if startsWithSlash s then
        pathJoin providerRoot (String.mk (("images/").toList ++ pathNameChars s))
      else pathJoin providerRoot (String.mk s)

/-! ## Per-rater session state: frozen plan, sizes, cursors -/

/-- The per-rater session state written by `sample_plan_for_rater`:
`session["plan"]`, `session["plan_sizes"]`, `session["plan_idx"]`. -/
structure SessionData where
  planA : List ManifestRow
  planB : List KeyB
  planC : List CEntry
  sizesA : Nat
  sizesB : Nat
  sizesC : Nat
  idxA : Nat
  idxB : Nat
  idxC : Nat
deriving Repr, DecidableEq

/-- `slim_asdict_mr`: the stored plan entry, with `prompt_text` blanked so the
session cookie stays small (rehydrated from the pools at render time). -/
def slim (r : ManifestRow) : ManifestRow :=
  { r with prompt_text := "" }

/-- A stored Module C plan entry: the tuple with its five rows slimmed. -/
def slimC (e : CEntry) : CEntry :=
  (e.1, e.2.1, e.2.2.1, e.2.2.2.map slim)

/-- The configured per-module plan sizes (`MODULE_ITEMS`). -/
structure Targets where
  tA : Nat
  tB : Nat
  tC : Nat
deriving Repr, DecidableEq

/-- `sample_plan_for_rater`: filter each pool by the rater's seen keys, draw a
random subset/prefix bounded by the configured size, freeze it as the plan,
record its sizes and reset all three cursors to 0.  `random.sample` and
`random.shuffle` are modelled by the permutation parameters `sigA`, `sigB`,
`sigC`. -/
def samplePlan (pools : Pools) (seenA : List KeyA) (seenB : List KeyB)
    (seenC : List KeyC) (tgt : Targets)
    (sigA : List ManifestRow → List ManifestRow)
    (sigB : List KeyB → List KeyB)
    (sigC : List CEntry → List CEntry) : SessionData :=
  let poolA := pools.allA.filter (fun m => decide (keyA m ∉ seenA))
  let kA := min tgt.tA poolA.length
  let planA := (sigA poolA).take kA
  let poolB := (pools.bSets.map Prod.fst).filter (fun k => decide (k ∉ seenB))
  let kB := min tgt.tB poolB.length
  let planB := (sigB poolB).take kB
  let poolC := pools.cSets.filter (fun e => decide (cKey e ∉ seenC))
  let kC := min tgt.tC poolC.length
  let planC := (sigC poolC).take kC
  { planA := planA.map slim
    planB := planB
    planC := planC.map slimC
    sizesA := planA.length
    sizesB := planB.length
    sizesC := planC.length
    idxA := 0
    idxB := 0
    idxC := 0 }

/-! ## Routes: module pages and submissions -/

/-- The template files the app ships (`TEMPLATES.keys()` in `app.py`;
`ensure_assets` materializes exactly these). -/
def templatesProvided : List String :=
  ["base.html", "home.html", "onboarding.html", "module_a.html",
   "module_b.html", "module_c.html", "thanks.html", "admin_login.html",
   "admin.html"]

/-- Outcome of a GET route: a rendered page, a redirect, or an HTTP error. -/
inductive RouteResult where
  | page (template : String)
  | redirectTo (endpoint : String)
  | serverError (code : Nat)
deriving Repr, DecidableEq

/-- `render_template(name, ...)`: renders when the template exists, otherwise
Jinja raises `TemplateNotFound`, which Flask surfaces as a 500 error. -/
def renderTemplate (name : String) : RouteResult :=
  if templatesProvided.contains name then RouteResult.page name
  else RouteResult.serverError 500

/-- The `mod_a` route: past-the-end cursor redirects to `full_next` (chained
mode) or `thanks`; otherwise the Module A page renders `plan["A"][idx]`. -/
def modA (fullMode : Bool) (sess : SessionData) : RouteResult :=
  if sess.sizesA ≤ sess.idxA then
    if fullMode then RouteResult.redirectTo ("full_next")
    else RouteResult.redirectTo ("thanks")
  else renderTemplate ("module_a.html")

/-- The `mod_b` route: a zero-size plan renders the `no_data.html` template; a
past-the-end cursor redirects; otherwise the Module B page renders the set at
`plan["B"][idx]`. -/
def modB (fullMode : Bool) (sess : SessionData) : RouteResult :=
  if sess.sizesB ≤ 0 then renderTemplate ("no_data.html")
  else if sess.sizesB ≤ sess.idxB then
    if fullMode then RouteResult.redirectTo ("full_next")
    else RouteResult.redirectTo ("thanks")
  else renderTemplate ("module_b.html")

/-- The `mod_c` route, analogous to `mod_a`. -/
def modC (fullMode : Bool) (sess : SessionData) : RouteResult :=
  if sess.sizesC ≤ sess.idxC then
    if fullMode then RouteResult.redirectTo ("full_next")
    else RouteResult.redirectTo ("thanks")
  else renderTemplate ("module_c.html")

/-- Outcome of a `submit_b` POST. -/
inductive SubmitBOutcome where
  | badRequest
  | rejected
  | accepted
deriving Repr, DecidableEq

/-- `submit_b` for one rater: parse the four rank fields (a missing field
aborts with 400 before anything is touched), then `mark_seen_b` adds the
submitted set's key to the rater's Module-B seen set, and only then the
uniqueness check runs — duplicate ranks flash an error and redirect back to
`mod_b` without advancing the cursor; unique ranks record the response and
advance the Module B cursor. -/
def submitB (rcg rgo rst rbf : Option Int) (cat prompt : String) (seed : Int)
    (seenB : List KeyB) (sess : SessionData) :
    List KeyB × SessionData × SubmitBOutcome :=
  match rcg, rgo, rst, rbf with
  | some a, some b, some c, some d =>
    let seenB' := List.insert (cat, prompt, seed) seenB
    if ([a, b, c, d].dedup).length ≠ 4 then
      (seenB', sess, SubmitBOutcome.rejected)
    else
      (seenB', { sess with idxB := sess.idxB + 1 }, SubmitBOutcome.accepted)
  | _, _, _, _ => (seenB, sess, SubmitBOutcome.badRequest)

/-! ## The per-rater trace machine: draws and accepted submissions -/

/-- One rater's cross-request state: the three in-memory seen sets
(`SEEN_A[rid]`, `SEEN_B[rid]`, `SEEN_C[rid]`), the session, plus the history
of task keys served via accepted submissions (ghost state for the no-repeat
property). -/
structure TraceState where
  seenA : List KeyA
  seenB : List KeyB
  seenC : List KeyC
  sess : SessionData
  histA : List KeyA
  histB : List KeyB
  histC : List KeyC

/-- An event in one rater's lifetime: a plan draw against freshly built pools
(`build_tasks` + `sample_plan_for_rater`), or an accepted submission of the
task at the current cursor of a module (`submit_a` / `submit_b` with unique
ranks / `submit_c`: mark the task's key seen, advance the cursor). -/
inductive Op where
  | draw (perProv : List (String × List ManifestRow)) (seeds : List Int)
      (tgt : Targets)
      (sigA : List ManifestRow → List ManifestRow)
      (sigB : List KeyB → List KeyB)
      (sigC : List CEntry → List CEntry)
  | submitA
  | submitOkB
  | submitC

/-- One step of the per-rater machine. -/
def stepOp (st : TraceState) : Op → TraceState
  | Op.draw perProv seeds tgt sigA sigB sigC =>
    { st with sess := (samplePlan (buildPools perProv seeds) st.seenA st.seenB
        st.seenC tgt sigA sigB sigC) }
  | Op.submitA =>
    match st.sess.planA.get? st.sess.idxA with
    | none => st
    | some item =>
      { st with
        seenA := keyA item :: st.seenA
        sess := { st.sess with idxA := st.sess.idxA + 1 }
        histA := st.histA ++ [keyA item] }
  | Op.submitOkB =>
    match st.sess.planB.get? st.sess.idxB with
    | none => st
    | some k =>
      { st with
        seenB := k :: st.seenB
        sess := { st.sess with idxB := st.sess.idxB + 1 }
        histB := st.histB ++ [k] }
  | Op.submitC =>
    match st.sess.planC.get? st.sess.idxC with
    | none => st
    | some e =>
      { st with
        seenC := cKey e :: st.seenC
        sess := { st.sess with idxC := st.sess.idxC + 1 }
        histC := st.histC ++ [cKey e] }

/-- A fresh rater: empty seen sets, empty session, empty histories. -/
def initTrace : TraceState :=
  { seenA := [], seenB := [], seenC := []
    sess := { planA := [], planB := [], planC := [], sizesA := 0, sizesB := 0,
              sizesC := 0, idxA := 0, idxB := 0, idxC := 0 }
    histA := [], histB := [], histC := [] }

/-- Run a sequence of events from the fresh-rater state. -/
def runOps (ops : List Op) : TraceState :=
  ops.foldl stepOp initTrace

/-- Side conditions on an event: a draw's shuffles are genuine permutations,
and the pools it draws from have duplicate-free candidate key lists — for
Module A, no two pool rows share a `(provider, category, prompt, seed)` key. -/
def ValidOp : Op → Prop
  | Op.draw perProv seeds _ sigA sigB sigC =>
    (∀ l, (sigA l).Perm l) ∧ (∀ l, (sigB l).Perm l) ∧ (∀ l, (sigC l).Perm l) ∧
    (((buildPools perProv seeds).allA.map keyA).Nodup) ∧
    (((buildPools perProv seeds).bSets.map Prod.fst).Nodup) ∧
    (((buildPools perProv seeds).cSets.map cKey).Nodup)
  | _ => True

/-! ## Admin operations and whole-app state -/

/-- Server pools plus one rater's session, as seen by that rater's requests. -/
structure AppState where
  pools : Pools
  sess : SessionData

/-- `admin_reload` (successful path): `build_tasks` replaces the process-wide
pools; sessions live in client cookies and are not touched. -/
def adminReload (st : AppState) (newPools : Pools) : AppState :=
  { pools := newPools, sess := st.sess }

/-- The not-yet-served tail of the frozen Module A plan. -/
def remainingA (st : AppState) : List ManifestRow :=
  st.sess.planA.drop st.sess.idxA

/-- The not-yet-served tail of the frozen Module B plan (set keys). -/
def remainingB (st : AppState) : List KeyB :=
  st.sess.planB.drop st.sess.idxB

/-- The not-yet-served tail of the frozen Module C plan. -/
def remainingC (st : AppState) : List CEntry :=
  st.sess.planC.drop st.sess.idxC

/-- The Module B set key the rater is currently served (`plan["B"][idx]`). -/
def serveBKey (st : AppState) : Option KeyB :=
  st.sess.planB.get? st.sess.idxB

/-- Process-wide seen-history maps plus every rater's session plan state
(`None` after the plan keys are popped). -/
structure SurveyState where
  seenA : String → List KeyA
  seenB : String → List KeyB
  seenC : String → List KeyC
  sessionPlan : String → Option SessionData

/-- `admin_clear_seen_all`: wipe `SEEN_A`, `SEEN_B`, `SEEN_C`; sessions are
not touched. -/
def adminClearSeenAll (st : SurveyState) : SurveyState :=
  { seenA := fun _ => [], seenB := fun _ => [], seenC := fun _ => []
    sessionPlan := st.sessionPlan }

/-- `admin_clear_seen_me`: pop the calling rater's entries from the three seen
maps and pop `plan`, `plan_idx`, `plan_sizes` from that rater's session. -/
def adminClearSeenMe (rid : String) (st : SurveyState) : SurveyState :=
  { seenA := fun r => if r = rid then [] else st.seenA r
    seenB := fun r => if r = rid then [] else st.seenB r
    seenC := fun r => if r = rid then [] else st.seenC r
    sessionPlan := fun r => if r = rid then none else st.sessionPlan r }

/-- The Module A task a rater's session currently serves, if any. -/
def servedFromSession (os : Option SessionData) : Option ManifestRow :=
  os.bind (fun s => s.planA.get? s.idxA)

/-! ## Concrete fixtures -/

/-- A representative "ok" manifest row for provider `p1`. -/
def rowP1 : ManifestRow :=
  { provider := "p1", model := "m1", run_id := "run-001", category_id := "c1",
    prompt_id := "q1", seed_label := 11, image_path := "/data/p1/images/a.png",
    prompt_text := "a cat", has_text := false, expected_texts := "",
    no_people := false, status := "ok", w := none, h := none,
    completed_utc := "2025-01-01T00:00:00Z" }

/-- A matching row for provider `p2` (same Module B key as `rowP1`). -/
def rowP2 : ManifestRow :=
  { rowP1 with
    provider := "p2"
    model := "m2"
    image_path := "/data/p2/images/a.png"
    completed_utc := "2025-01-02T00:00:00Z" }

/-! ## Claim C5 -/

/-- Claim C5: an administrative pool rebuild (`admin_reload` → `build_tasks`)
replaces only the process-wide pools; a rater's session — the frozen plans,
the plan sizes and the progress cursors — is untouched, so the remaining
frozen task sequence of every module, and in particular the Module B set key
currently served, are exactly what was drawn before the rebuild, whatever the
new pools are. -/
theorem c5_reload_preserves_frozen_plan :
    ∀ (st : AppState) (newPools : Pools),
      (adminReload st newPools).sess = st.sess ∧
      remainingA (adminReload st newPools) = remainingA st ∧
      remainingB (adminReload st newPools) = remainingB st ∧
      remainingC (adminReload st newPools) = remainingC st ∧
      serveBKey (adminReload st newPools) = serveBKey st ∧
      (adminReload st newPools).pools = newPools := by
  intro st newPools
  exact ⟨rfl, rfl, rfl, rfl, rfl, rfl⟩

/-! ## Claim C10 -/

/-- Claim C10: `admin_clear_seen_all` empties every rater's seen sets for all
three modules and leaves every rater's session plan state (frozen plan, plan
sizes, progress cursor) unchanged, so the currently served task is unchanged;
`admin_clear_seen_me` empties only the calling rater's seen sets and
additionally discards that rater's plan/sizes/cursor, leaving every other
rater untouched. -/
theorem c10_clear_seen_frame :
    ∀ (st : SurveyState) (rid r : String),
      (adminClearSeenAll st).seenA r = [] ∧
      (adminClearSeenAll st).seenB r = [] ∧
      (adminClearSeenAll st).seenC r = [] ∧
      (adminClearSeenAll st).sessionPlan r = st.sessionPlan r ∧
      servedFromSession ((adminClearSeenAll st).sessionPlan r)
        = servedFromSession (st.sessionPlan r) ∧
      (adminClearSeenMe rid st).seenA rid = [] ∧
      (adminClearSeenMe rid st).seenB rid = [] ∧
      (adminClearSeenMe rid st).seenC rid = [] ∧
      (adminClearSeenMe rid st).sessionPlan rid = none ∧
      (r ≠ rid →
        (adminClearSeenMe rid st).seenA r = st.seenA r ∧
        (adminClearSeenMe rid st).seenB r = st.seenB r ∧
        (adminClearSeenMe rid st).seenC r = st.seenC r ∧
        (adminClearSeenMe rid st).sessionPlan r = st.sessionPlan r) := by
  intro st rid r
  refine ⟨rfl, rfl, rfl, rfl, rfl, ?_, ?_, ?_, ?_, ?_⟩
  · simp [adminClearSeenMe]
  · simp [adminClearSeenMe]
  · simp [adminClearSeenMe]
  · simp [adminClearSeenMe]
  · intro h
    refine ⟨?_, ?_, ?_, ?_⟩ <;> simp [adminClearSeenMe, h]

/-- A concrete two-rater survey state for exercising `c10_clear_seen_frame`. -/
def c10State : SurveyState :=
  { seenA := fun _ => [keyA rowP1]
    seenB := fun _ => [keyB rowP1]
    seenC := fun _ => [("p1", "c1", "q1")]
    sessionPlan := fun _ =>
      some { planA := [rowP1], planB := [], planC := [], sizesA := 1,
             sizesB := 0, sizesC := 0, idxA := 0, idxB := 0, idxC := 0 } }

/-- Witness for `c10_clear_seen_frame` at a concrete state: clearing rater
`bob` leaves rater `alice` untouched, while the global clear wipes `alice`'s
seen set but not her session plan. -/
theorem c10_clear_seen_frame_witness :
    (adminClearSeenMe ("bob") c10State).seenA ("alice")
      = c10State.seenA ("alice") ∧
    (adminClearSeenAll c10State).seenA ("alice") = [] ∧
    (adminClearSeenAll c10State).sessionPlan ("alice")
      = c10State.sessionPlan ("alice") :=
  ⟨((c10_clear_seen_frame c10State ("bob") ("alice")).2.2.2.2.2.2.2.2.2
      (by decide)).1,
   (c10_clear_seen_frame c10State ("bob") ("alice")).1,
   (c10_clear_seen_frame c10State ("bob") ("alice")).2.2.2.1⟩

/-! ## Claim C1 -/

/-- A session whose frozen Module B plan holds the single set
`("cat01", "p01", 11)`, cursor at 0. -/
def c1Sess : SessionData :=
  { planA := [], planB := [("cat01", "p01", 11)], planC := [], sizesA := 0,
    sizesB := 1, sizesC := 0, idxA := 0, idxB := 0, idxC := 0 }

/-- Claim C1 is violated by the code: submitting Module B ranks
`{chatgpt: 1, google: 1, stability: 2, bfl: 3}` (duplicate rank 1) for the
set `("cat01","p01",11)` is rejected and the cursor stays put — the same
comparison set is re-presented — but the rater's Module-B seen set is *not*
"exactly as it was": `submit_b` calls `mark_seen_b` before validating the
ranks, so the rejected set's key has been added to the seen set. -/
theorem c1_submitB_rejection_mutates_seen :
    submitB (some 1) (some 1) (some 2) (some 3) ("cat01") ("p01") 11 [] c1Sess
      = ([("cat01", "p01", 11)], c1Sess, SubmitBOutcome.rejected) ∧
    ([("cat01", "p01", 11)] : List KeyB) ≠ [] ∧
    modB false c1Sess = RouteResult.page ("module_b.html") ∧
    c1Sess.planB.get? c1Sess.idxB = some ("cat01", "p01", 11) := by
  decide

/-! ## Claim C8 -/

/-- Pools with exactly one candidate per module, built from provider `p1`. -/
def c8Pools : Pools :=
  buildPools [("p1", [rowP1])] [11]

/-- The plan a rater draws once every candidate of every module is already in
their seen history: all three plans come out empty. -/
def c8Sess : SessionData :=
  samplePlan c8Pools [keyA rowP1] [keyB rowP1] [("p1", "c1", "q1")]
    { tA := 24, tB := 12, tC := 12 } id id id

/-- Claim C8 is violated by the code for Module B: with zero unseen
candidates the drawn plans are indeed empty, and Modules A and C redirect to
the "thanks" page, but `mod_b` tries to render `no_data.html` — a template
that is not among the assets the app ships — so the rater gets a 500 error
response instead of a completed/unavailable presentation. -/
theorem c8_exhausted_modB_is_error :
    c8Sess.planA = [] ∧ c8Sess.planB = [] ∧ c8Sess.planC = [] ∧
    c8Sess.sizesA = 0 ∧ c8Sess.sizesB = 0 ∧ c8Sess.sizesC = 0 ∧
    modA false c8Sess = RouteResult.redirectTo ("thanks") ∧
    modC false c8Sess = RouteResult.redirectTo ("thanks") ∧
    modB false c8Sess = RouteResult.serverError 500 ∧
    templatesProvided.contains ("no_data.html") = false := by
  decide

/-! ## Claim C6 -/

/-- The pools in effect before the failing rebuild (a complete, consistent
build from both providers). -/
def c6Old : Pools :=
  buildPools [("p1", [rowP1]), ("p2", [rowP2])] [11]

/-- A newer row for provider `p1`, delivered by the re-read manifest. -/
def rowP1New : ManifestRow :=
  { rowP1 with
    run_id := "run-002"
    image_path := "/data/p1/images/b.png"
    prompt_id := "q2"
    completed_utc := "2025-02-01T00:00:00Z" }

/-- A manifest reader that succeeds for `p1` and fails with an I/O error for
`p2`. -/
def c6Read : String → Except String (List ManifestRow) :=
  fun p => if p = "p1" then Except.ok [rowP1New] else Except.error ("io error")

/-- Claim C6 is violated by the code: `build_tasks` clears and refills the
process-wide `ALL_A_IMAGES` in place, so when re-reading `p2`'s manifest
fails after `p1` was processed, the flat pool is left holding only `p1`'s new
rows — not its pre-rebuild value — while `B_SETS` and `C_SETS` keep their old
values (a mixed, half-built state).  The failure itself is reported as a
structured failure (`admin_reload` catches it), which is the one part of the
claim the code honors. -/
theorem c6_failed_rebuild_leaves_mixed_state :
    buildTasksFallible c6Read ["p1", "p2"] [11] c6Old
      = ({ allA := [rowP1New], bSets := c6Old.bSets, cSets := c6Old.cSets },
         some ("io error")) ∧
    ({ allA := [rowP1New], bSets := c6Old.bSets, cSets := c6Old.cSets } : Pools)
      ≠ c6Old := by
  decide

/-! ## Claim C3 -/

/-- Claim C3: for any pools, seen history, configured sizes and genuine
shuffles, the drawn plan of each module has length exactly
`min(configured size, number of unseen pool candidates)` — when there are
fewer unseen candidates than the configured size all of them are taken — and
the recorded plan sizes match the plan lengths.  Totality of `samplePlan`
embeds that no error is raised. -/
theorem c3_sampling_bound :
    ∀ (pools : Pools) (seenA : List KeyA) (seenB : List KeyB)
      (seenC : List KeyC) (tgt : Targets)
      (sigA : List ManifestRow → List ManifestRow)
      (sigB : List KeyB → List KeyB) (sigC : List CEntry → List CEntry),
      (∀ l, (sigA l).Perm l) → (∀ l, (sigB l).Perm l) →
      (∀ l, (sigC l).Perm l) →
      (samplePlan pools seenA seenB seenC tgt sigA sigB sigC).planA.length
          = min tgt.tA (pools.allA.countP (fun m => decide (keyA m ∉ seenA))) ∧
      (samplePlan pools seenA seenB seenC tgt sigA sigB sigC).sizesA
          = (samplePlan pools seenA seenB seenC tgt sigA sigB sigC).planA.length ∧
      (samplePlan pools seenA seenB seenC tgt sigA sigB sigC).planB.length
          = min tgt.tB
              ((pools.bSets.map Prod.fst).countP (fun k => decide (k ∉ seenB))) ∧
      (samplePlan pools seenA seenB seenC tgt sigA sigB sigC).sizesB
          = (samplePlan pools seenA seenB seenC tgt sigA sigB sigC).planB.length ∧
      (samplePlan pools seenA seenB seenC tgt sigA sigB sigC).planC.length
          = min tgt.tC (pools.cSets.countP (fun e => decide (cKey e ∉ seenC))) ∧
      (samplePlan pools seenA seenB seenC tgt sigA sigB sigC).sizesC
          = (samplePlan pools seenA seenB seenC tgt sigA sigB sigC).planC.length := by
  intro pools seenA seenB seenC tgt sigA sigB sigC hA hB hC
  have eA := (hA (pools.allA.filter (fun m => decide (keyA m ∉ seenA)))).length_eq
  have eB :=
    (hB ((pools.bSets.map Prod.fst).filter (fun k => decide (k ∉ seenB)))).length_eq
  have eC := (hC (pools.cSets.filter (fun e => decide (cKey e ∉ seenC)))).length_eq
  simp [samplePlan, List.countP_eq_length_filter] at eA eB eC ⊢
  omega

/-- Pools from two providers sharing one comparison key, for exercising
`c3_sampling_bound`. -/
def c3Pools : Pools :=
  buildPools [("p1", [rowP1]), ("p2", [rowP2])] [11]

/-- Witness for `c3_sampling_bound` at a concrete input: two unseen flat
candidates, one unseen comparison key, two unseen diversity sets, sizes
(24, 12, 12) — the drawn plans have lengths 2, 1, 2. -/
theorem c3_sampling_bound_witness :
    (samplePlan c3Pools [] [] [] { tA := 24, tB := 12, tC := 12 } id id
        id).planA.length = 2 ∧
    (samplePlan c3Pools [] [] [] { tA := 24, tB := 12, tC := 12 } id id
        id).planB.length = 1 ∧
    (samplePlan c3Pools [] [] [] { tA := 24, tB := 12, tC := 12 } id id
        id).planC.length = 2 := by
  have h := c3_sampling_bound c3Pools [] [] [] { tA := 24, tB := 12, tC := 12 }
    id id id (fun l => List.Perm.refl l) (fun l => List.Perm.refl l)
    (fun l => List.Perm.refl l)
  refine ⟨?_, ?_, ?_⟩
  · rw [h.1]; decide
  · rw [h.2.2.1]; decide
  · rw [h.2.2.2.2.1]; decide

/-! ## Claim C9 -/

/-- `tsLt` is irreflexive. -/
lemma tsLt_irrefl (a : String) : ¬ tsLt a a := by
  simp [tsLt]

/-- "Not above" is transitive for `tsLt` (the order on `List Char` is
linear). -/
lemma not_tsLt_trans {x y z : String} (h1 : ¬ tsLt x y) (h2 : ¬ tsLt y z) :
    ¬ tsLt x z := by
  unfold tsLt at *
  exact not_lt.mpr (le_trans (not_lt.mp h2) (not_lt.mp h1))

/-- If `y < z` and `z ≤ x` then `y < x`, hence `¬ x < y`. -/
lemma not_tsLt_of_tsLt_of_not {x y z : String} (hlt : tsLt y z)
    (hn : ¬ tsLt x z) : ¬ tsLt x y := by
  unfold tsLt at *
  exact not_lt.mpr (le_of_lt (lt_of_lt_of_le hlt (not_lt.mp hn)))

/-- The per-key dictionary fold yields `none` exactly when the accumulator is
`none` and no row matches the key. -/
lemma foldl_pickLatest_eq_none_iff (k : KeyB) :
    ∀ (rows : List ManifestRow) (acc : Option ManifestRow),
      rows.foldl (pickLatest k) acc = none ↔
        (acc = none ∧ ∀ r ∈ rows, keyB r ≠ k) := by
  intro rows
  induction rows with
  | nil => intro acc; simp
  | cons r rest ih =>
    intro acc
    rw [List.foldl_cons, ih]
    by_cases hkr : keyB r = k
    · cases acc with
      | none => simp [pickLatest, hkr]
      | some keep =>
        by_cases ht : tsLt keep.completed_utc r.completed_utc <;>
          simp [pickLatest, hkr, ht]
    · simp [pickLatest, hkr, and_assoc]

/-- Characterization of a `some` result of the per-key dictionary fold: the
kept row matches the key, comes from the scanned rows (or the accumulator),
and no scanned matching row nor the accumulator has a strictly greater
completion timestamp. -/
lemma foldl_pickLatest_some_spec (k : KeyB) :
    ∀ (rows : List ManifestRow) (acc : Option ManifestRow),
      (∀ a, acc = some a → keyB a = k) →
      ∀ kept, rows.foldl (pickLatest k) acc = some kept →
        keyB kept = k ∧ (kept ∈ rows ∨ acc = some kept) ∧
        (∀ r ∈ rows, keyB r = k →
          ¬ tsLt kept.completed_utc r.completed_utc) ∧
        (∀ a, acc = some a →
          ¬ tsLt kept.completed_utc a.completed_utc) := by
  intro rows
  induction rows with
  | nil =>
    intro acc hacc kept h
    rw [List.foldl_nil] at h
    refine ⟨hacc kept h, Or.inr h, by simp, ?_⟩
    intro a ha
    rw [h] at ha
    injection ha with he
    subst he
    exact tsLt_irrefl _
  | cons r rest ih =>
    intro acc hacc kept h
    rw [List.foldl_cons] at h
    have hacc' : ∀ a, pickLatest k acc r = some a → keyB a = k := by
      intro a ha
      by_cases hkr : keyB r = k
      · cases acc with
        | none =>
          simp [pickLatest, hkr] at ha
          rw [← ha]
          exact hkr
        | some keep =>
          by_cases ht : tsLt keep.completed_utc r.completed_utc
          · simp [pickLatest, hkr, ht] at ha
            rw [← ha]
            exact hkr
          · simp [pickLatest, hkr, ht] at ha
            rw [← ha]
            exact hacc keep rfl
      · simp [pickLatest, hkr] at ha
        exact hacc a ha
    obtain ⟨g1, g2, g3, g4⟩ := ih (pickLatest k acc r) hacc' kept h
    refine ⟨g1, ?_, ?_, ?_⟩
    · rcases g2 with hm | hs
      · exact Or.inl (List.mem_cons_of_mem _ hm)
      · by_cases hkr : keyB r = k
        · cases acc with
          | none =>
            simp [pickLatest, hkr] at hs
            rw [← hs]
            exact Or.inl (List.mem_cons_self _ _)
          | some keep =>
            by_cases ht : tsLt keep.completed_utc r.completed_utc
            · simp [pickLatest, hkr, ht] at hs
              rw [← hs]
              exact Or.inl (List.mem_cons_self _ _)
            · simp [pickLatest, hkr, ht] at hs
              exact Or.inr (by rw [hs])
        · simp [pickLatest, hkr] at hs
          exact Or.inr (by rw [hs])
    · intro r' hr' hk'
      rcases List.mem_cons.mp hr' with he | hmem
      · subst he
        by_cases hkr : keyB r' = k
        · cases acc with
          | none => exact g4 r' (by simp [pickLatest, hkr])
          | some keep =>
            by_cases ht : tsLt keep.completed_utc r'.completed_utc
            · exact g4 r' (by simp [pickLatest, hkr, ht])
            · have hkk := g4 keep (by simp [pickLatest, hkr, ht])
              exact not_tsLt_trans hkk ht
        · exact absurd hk' hkr
      · exact g3 r' hmem hk'
    · intro a ha
      by_cases hkr : keyB r = k
      · cases acc with
        | none => simp at ha
        | some keep =>
          injection ha with he
          rw [← he]
          by_cases ht : tsLt keep.completed_utc r.completed_utc
          · have hr4 := g4 r (by simp [pickLatest, hkr, ht])
            exact not_tsLt_of_tsLt_of_not ht hr4
          · exact g4 keep (by simp [pickLatest, hkr, ht])
      · exact g4 a (by simp [pickLatest, hkr, ha])

/-- The per-provider index holds a value at `k` exactly when some row has
key `k`. -/
lemma indexB_isSome_iff (rows : List ManifestRow) (k : KeyB) :
    (indexB rows k).isSome ↔ ∃ r ∈ rows, keyB r = k := by
  unfold indexB
  constructor
  · intro hs
    by_contra hex
    push_neg at hex
    have hnone : rows.foldl (pickLatest k) none = none :=
      (foldl_pickLatest_eq_none_iff k rows none).mpr ⟨rfl, hex⟩
    rw [hnone] at hs
    simp at hs
  · rintro ⟨r, hr, hk⟩
    by_contra hns
    have hnone : rows.foldl (pickLatest k) none = none :=
      Option.not_isSome_iff_eq_none.mp hns
    exact ((foldl_pickLatest_eq_none_iff k rows none).mp hnone).2 r hr hk

/-- Claim C9: the per-provider index kept for a key during ComparisonSet
construction exists exactly when some row has that key, keeps a single row of
the provider that carries that key, and every row with the same key has a
completion-timestamp string that compares lexicographically less than or
equal to the kept entry's (code-point order on the character lists, i.e.
Python's string order). -/
theorem c9_latest_wins :
    ∀ (rows : List ManifestRow) (k : KeyB),
      ((indexB rows k).isSome ↔ ∃ r ∈ rows, keyB r = k) ∧
      (∀ kept, indexB rows k = some kept →
        keyB kept = k ∧ kept ∈ rows ∧
        ∀ r ∈ rows, keyB r = k →
          r.completed_utc.toList ≤ kept.completed_utc.toList) := by
  intro rows k
  refine ⟨indexB_isSome_iff rows k, ?_⟩
  intro kept h
  obtain ⟨g1, g2, g3, _⟩ :=
    foldl_pickLatest_some_spec k rows none (by intro a ha; simp at ha) kept h
  rcases g2 with hm | hs
  · refine ⟨g1, hm, ?_⟩
    intro r hr hk
    have := g3 r hr hk
    unfold tsLt at this
    exact not_lt.mp this
  · simp at hs

/-- A later duplicate of `rowP1`'s comparison key. -/
def rowP1Late : ManifestRow :=
  { rowP1 with
    model := "late"
    completed_utc := "2025-06-01T00:00:00Z" }

/-- Witness for `c9_latest_wins` at a concrete input: with two rows sharing a
key, the one with the greater timestamp is kept and the other's timestamp
compares `≤` it. -/
theorem c9_latest_wins_witness :
    indexB [rowP1, rowP1Late] (keyB rowP1) = some rowP1Late ∧
    rowP1.completed_utc.toList ≤ rowP1Late.completed_utc.toList :=
  ⟨by decide,
   ((c9_latest_wins [rowP1, rowP1Late] (keyB rowP1)).2 rowP1Late
       (by decide)).2.2 rowP1 (by decide) (by decide)⟩

/-! ## Claim C4 -/

/-- When every provider's index holds a value at `k`, the per-key entry list
covers exactly the provider list, in order. -/
lemma bEntries_fst (k : KeyB) :
    ∀ (perProv : List (String × List ManifestRow)),
      (∀ p ∈ perProv, (indexB p.2 k).isSome) →
      (perProv.filterMap
          (fun p => (indexB p.2 k).map (fun r => (p.1, r)))).map Prod.fst
        = perProv.map Prod.fst := by
  intro perProv
  induction perProv with
  | nil => intro _; simp
  | cons p ps ih =>
    intro hall
    obtain ⟨r, hr⟩ :=
      Option.isSome_iff_exists.mp (hall p (List.mem_cons_self _ _))
    have ihh := ih (fun q hq => hall q (List.mem_cons_of_mem _ hq))
    simp only [List.filterMap_cons, hr, Option.map_some', List.map_cons]
    rw [ihh]

/-- Claim C4: (1) every `ComparisonSet` in `B_SETS` maps exactly the
configured provider list, one `ManifestRow` per provider; (2) a key is in
`B_SETS` iff every configured provider has a row with that key (given at
least one provider is configured); (3) every `DiversitySet` in `C_SETS` has
exactly one row per configured seed label, ordered by the configured
seed-label sequence, and exists only if its provider has a row for every
configured seed label under that `(category, prompt)`. -/
theorem c4_pool_completeness :
    ∀ (perProv : List (String × List ManifestRow)) (seeds : List Int),
      (∀ k entries, (k, entries) ∈ mkBSets perProv →
        entries.map Prod.fst = perProv.map Prod.fst) ∧
      (∀ k, (∃ entries, (k, entries) ∈ mkBSets perProv) ↔
        (perProv ≠ [] ∧ ∀ p ∈ perProv, ∃ r ∈ p.2, keyB r = k)) ∧
      (∀ e ∈ mkCSets perProv seeds,
        e.2.2.2.length = seeds.length ∧
        (∀ i (hi : i < e.2.2.2.length) (hs : i < seeds.length),
          (e.2.2.2.get ⟨i, hi⟩).seed_label = seeds.get ⟨i, hs⟩) ∧
        (∃ rowsP, (e.1, rowsP) ∈ perProv ∧ ∀ s ∈ seeds, ∃ r ∈ rowsP,
          r.category_id = e.2.1 ∧ r.prompt_id = e.2.2.1 ∧
          r.seed_label = s)) := by
  intro perProv seeds
  refine ⟨?_, ?_, ?_⟩
  · -- (1) provider coverage of each B entry
    intro k entries hmem
    cases perProv with
    | nil => simp [mkBSets] at hmem
    | cons p0 ps =>
      rw [mkBSets] at hmem
      rcases List.mem_map.mp hmem with ⟨k', hk', heq⟩
      rcases Prod.mk.injEq .. ▸ heq with ⟨_, hent⟩
      rcases List.mem_filter.mp hk' with ⟨_, hall⟩
      rw [← hent]
      refine bEntries_fst k' (p0 :: ps) ?_
      intro p hp
      exact List.all_eq_true.mp hall p hp
  · -- (2) membership iff intersection
    intro k
    constructor
    · rintro ⟨entries, hmem⟩
      cases perProv with
      | nil => simp [mkBSets] at hmem
      | cons p0 ps =>
        rw [mkBSets] at hmem
        rcases List.mem_map.mp hmem with ⟨k', hk', heq⟩
        rcases Prod.mk.injEq .. ▸ heq with ⟨hk'', _⟩
        rcases List.mem_filter.mp hk' with ⟨_, hall⟩
        refine ⟨by simp, ?_⟩
        rw [← hk'']
        intro p hp
        exact (indexB_isSome_iff p.2 k').mp (List.all_eq_true.mp hall p hp)
    · rintro ⟨hne, hall⟩
      cases perProv with
      | nil => exact absurd rfl hne
      | cons p0 ps =>
        have hmemk : k ∈ keysOfRows p0.2 := by
          obtain ⟨r, hr, hkr⟩ := hall p0 (List.mem_cons_self _ _)
          unfold keysOfRows
          rw [List.mem_dedup]
          exact hkr ▸ List.mem_map_of_mem keyB hr
        have hfilt : k ∈ (keysOfRows p0.2).filter
            (fun k' => (p0 :: ps).all (fun p => (indexB p.2 k').isSome)) := by
          rw [List.mem_filter]
          refine ⟨hmemk, List.all_eq_true.mpr ?_⟩
          intro p hp
          exact (indexB_isSome_iff p.2 k).mpr (hall p hp)
        refine ⟨(p0 :: ps).filterMap
          (fun p => (indexB p.2 k).map (fun r => (p.1, r))), ?_⟩
        rw [mkBSets]
        exact List.mem_map_of_mem _ hfilt
  · -- (3) diversity-set shape
    intro e hmem
    rcases List.mem_flatten.mp hmem with ⟨l, hl, hel⟩
    rcases List.mem_map.mp hl with ⟨p, hp, hlp⟩
    rw [← hlp] at hel
    rcases List.mem_filterMap.mp hel with ⟨gp, _, hgp⟩
    by_cases hcond : seeds.all
        (fun s => (lastWith p.2 gp.1 gp.2 s).isSome)
    · rw [if_pos hcond] at hgp
      injection hgp with hgp'
      subst hgp'
      refine ⟨by simp, ?_, ?_⟩
      · intro i hi hs
        have hsimem : seeds.get ⟨i, hs⟩ ∈ seeds := List.get_mem seeds i hs
        have hisSome := List.all_eq_true.mp hcond _ hsimem
        obtain ⟨row, hrow⟩ := Option.isSome_iff_exists.mp hisSome
        have hget : ((seeds.map
            (fun s => (lastWith p.2 gp.1 gp.2 s).getD defaultRow)).get
              ⟨i, hi⟩)
            = (lastWith p.2 gp.1 gp.2 (seeds.get ⟨i, hs⟩)).getD defaultRow := by
          rw [List.get_eq_getElem, List.get_eq_getElem, List.getElem_map]
        dsimp only
        rw [hget, hrow]
        have hrowmem := List.mem_of_getLast?_eq_some hrow
        rcases List.mem_filter.mp hrowmem with ⟨_, hpred⟩
        simp only [Bool.and_eq_true, beq_iff_eq] at hpred
        simpa using hpred.2
      · refine ⟨p.2, by simpa using hp, ?_⟩
        intro s hs
        have hisSome := List.all_eq_true.mp hcond _ hs
        obtain ⟨row, hrow⟩ := Option.isSome_iff_exists.mp hisSome
        have hrowmem := List.mem_of_getLast?_eq_some hrow
        rcases List.mem_filter.mp hrowmem with ⟨hrmem, hpred⟩
        simp only [Bool.and_eq_true, beq_iff_eq] at hpred
        exact ⟨row, hrmem, by simpa using hpred.1.1,
          by simpa using hpred.1.2, by simpa using hpred.2⟩
    · rw [if_neg hcond] at hgp
      exact absurd hgp (by simp)

/-- Witness for `c4_pool_completeness` at a concrete input: the single key
shared by both providers is in the pool and its entry covers exactly
`["p1", "p2"]`. -/
theorem c4_pool_completeness_witness :
    ((keyB rowP1, [("p1", rowP1), ("p2", rowP2)])
        ∈ mkBSets [("p1", [rowP1]), ("p2", [rowP2])]) ∧
    ([("p1", rowP1), ("p2", rowP2)].map Prod.fst
        = [("p1", [rowP1]), ("p2", [rowP2])].map Prod.fst) :=
  ⟨by decide,
   (c4_pool_completeness [("p1", [rowP1]), ("p2", [rowP2])] [11]).1
     (keyB rowP1) [("p1", rowP1), ("p2", rowP2)] (by decide)⟩

/-! ## Claim C7 -/

/-- `findSub` computes the least position at which the pattern occurs,
i.e. it agrees with a scan of all positions. -/
lemma findSub_eq_firstOccurrence :
    ∀ (pat l : List Char), findSub l pat = firstOccurrence l pat := by
  intro pat l
  induction l with
  | nil =>
    unfold findSub firstOccurrence
    by_cases h : pat.isPrefixOf ([] : List Char)
    · simp [h, List.range_succ]
    · simp [h, List.range_succ]
  | cons c rest ih =>
    unfold findSub firstOccurrence
    simp only [List.length_cons]
    by_cases h : pat.isPrefixOf (c :: rest)
    · rw [if_pos h, List.range_succ_eq_map,
        List.find?_cons_of_pos _ (by simpa using h)]
    · rw [if_neg h, List.range_succ_eq_map,
        List.find?_cons_of_neg _ (by simpa using h), List.find?_map, ih]
      unfold firstOccurrence
      have hpred : ((fun i => pat.isPrefixOf ((c :: rest).drop i)) ∘ Nat.succ)
          = (fun i => pat.isPrefixOf (rest.drop i)) := by
        funext i
        simp
      rw [hpred]

/-- Claim C7's rule (a), read literally ("contains the provider directory's
name as a path segment"), disagrees with the code: for manifest path
`foo/chatgpt` under provider root `/data/chatgpt`, the provider name is a
path segment, so the claimed rules re-root the (empty) remainder and produce
`/data/chatgpt`, but the code searches for the substring `/chatgpt/`, finds
none, and falls through to the relative-path rule, producing
`/data/chatgpt/foo/chatgpt`. -/
theorem c7_claimed_rules_counterexample :
    normalizeImagePath ("foo/chatgpt") ("/data/chatgpt")
        = "/data/chatgpt/foo/chatgpt" ∧
    normalizeImagePathClaimed ("foo/chatgpt") ("/data/chatgpt")
        = "/data/chatgpt" ∧
    ("/data/chatgpt/foo/chatgpt" : String) ≠ "/data/chatgpt" := by
  refine ⟨by decide, by decide, by decide⟩

/-- Claim C7 as amended: rules (a) and (b) fire only on an *interior* segment
occurrence — the first occurrence of the substring `/<name>/` (with the
separator on both sides) in the slash-normalized, lowercased path — with
rules (c) and (d) unchanged; and the claim's concrete scenario holds:
`C:\old\chatgpt\images\foo.png` under root `/data/chatgpt` resolves to
`/data/chatgpt/images/foo.png`. -/
theorem c7_normalization_amended :
    (∀ pathStr providerRoot : String,
      normalizeImagePath pathStr providerRoot
        = normalizeImagePathInterior pathStr providerRoot) ∧
    normalizeImagePath ("C:\\old\\chatgpt\\images\\foo.png") ("/data/chatgpt")
      = "/data/chatgpt/images/foo.png" := by
  constructor
  · intro pathStr providerRoot
    simp only [normalizeImagePath, normalizeImagePathInterior,
      findSub_eq_firstOccurrence]
  · decide

/-! ## Claim C2 -/

/-- The per-module no-repeat invariant of one rater's state: the served
history has no duplicates, served keys are all in the seen set, the unserved
tail of the frozen plan has duplicate-free keys, and none of them is seen. -/
def ModInv {κ : Type} (seen hist planKeys : List κ) (idx : Nat) : Prop :=
  hist.Nodup ∧ (∀ k ∈ hist, k ∈ seen) ∧ (planKeys.drop idx).Nodup ∧
  (∀ k ∈ planKeys.drop idx, k ∉ seen)

/-- An accepted submission of the task at the cursor preserves the
no-repeat invariant. -/
lemma modInv_submit {κ : Type} [DecidableEq κ] {seen hist planKeys : List κ}
    {idx : Nat} (h : ModInv seen hist planKeys idx) {k : κ}
    (hk : planKeys.get? idx = some k) :
    ModInv (k :: seen) (hist ++ [k]) planKeys (idx + 1) := by
  obtain ⟨h1, h2, h3, h4⟩ := h
  have hlt : idx < planKeys.length := by
    by_contra hge
    rw [List.get?_eq_none.mpr (le_of_not_lt hge)] at hk
    cases hk
  have hdrop : planKeys.drop idx = k :: planKeys.drop (idx + 1) := by
    rw [List.drop_eq_getElem_cons hlt]
    congr 1
    have := List.get?_eq_getElem? planKeys idx
    rw [hk, List.getElem?_eq_getElem hlt] at this
    exact (Option.some.injEq .. ▸ this.symm)
  rw [hdrop] at h3 h4
  rcases List.nodup_cons.mp h3 with ⟨hknot, h3'⟩
  have hkseen : k ∉ seen := h4 k (List.mem_cons_self _ _)
  refine ⟨?_, ?_, h3', ?_⟩
  · rw [List.nodup_append]
    refine ⟨h1, List.nodup_singleton k, ?_⟩
    intro x hx
    simp only [List.mem_singleton]
    intro hxk
    exact hkseen (hxk ▸ h2 x hx)
  · intro x hx
    rcases List.mem_append.mp hx with hx1 | hx2
    · exact List.mem_cons_of_mem _ (h2 x hx1)
    · rw [List.mem_singleton.mp hx2]
      exact List.mem_cons_self _ _
  · intro x hx
    have hxmem : x ∈ k :: planKeys.drop (idx + 1) :=
      List.mem_cons_of_mem _ hx
    intro hxin
    rcases List.mem_cons.mp hxin with hxk | hxseen
    · exact hknot (hxk ▸ hx)
    · exact h4 x hxmem hxseen

/-- Freshly drawing a plan establishes the no-repeat invariant: the unseen
filter keeps the plan disjoint from the seen set, and sampling without
replacement from a pool with duplicate-free keys keeps the plan keys
duplicate-free. -/
lemma modInv_after_draw {κ α : Type} [DecidableEq κ] (f : α → κ)
    (fl : List α) (sig : List α → List α) (hsig : ∀ l, (sig l).Perm l)
    (seen : List κ) (n : Nat) (hist : List κ)
    (hh1 : hist.Nodup) (hh2 : ∀ k ∈ hist, k ∈ seen)
    (hkeys : (fl.map f).Nodup) (hunseen : ∀ m ∈ fl, f m ∉ seen) :
    ModInv seen hist (((sig fl).take n).map f) 0 := by
  have hperm := hsig fl
  have hsigmap : ((sig fl).map f).Nodup :=
    ((hperm.map f).nodup_iff).mpr hkeys
  refine ⟨hh1, hh2, ?_, ?_⟩
  · rw [List.drop_zero, List.map_take]
    exact hsigmap.sublist (List.take_sublist _ _)
  · rw [List.drop_zero]
    intro x hx
    rcases List.mem_map.mp hx with ⟨m, hm, hfm⟩
    have hmem : m ∈ fl := (hperm.mem_iff).mp (List.mem_of_mem_take hm)
    rw [← hfm]
    exact hunseen m hmem

/-- The plain-key form of `modInv_after_draw`, for the Module B plan whose
entries are the keys themselves. -/
lemma modInv_after_draw_keys {κ : Type} [DecidableEq κ] (fl : List κ)
    (sig : List κ → List κ) (hsig : ∀ l, (sig l).Perm l)
    (seen : List κ) (n : Nat) (hist : List κ)
    (hh1 : hist.Nodup) (hh2 : ∀ k ∈ hist, k ∈ seen)
    (hkeys : fl.Nodup) (hunseen : ∀ k ∈ fl, k ∉ seen) :
    ModInv seen hist ((sig fl).take n) 0 := by
  have hperm := hsig fl
  have hsignd : (sig fl).Nodup := (hperm.nodup_iff).mpr hkeys
  refine ⟨hh1, hh2, ?_, ?_⟩
  · rw [List.drop_zero]
    exact hsignd.sublist (List.take_sublist _ _)
  · rw [List.drop_zero]
    intro x hx
    exact hunseen x ((hperm.mem_iff).mp (List.mem_of_mem_take hx))

/-- Keys of the slimmed Module A plan entries are the original keys. -/
lemma planA_keys (l : List ManifestRow) :
    (l.map slim).map keyA = l.map keyA := by
  rw [List.map_map]
  rfl

/-- Keys of the slimmed Module C plan entries are the original keys. -/
lemma planC_keys (l : List CEntry) :
    (l.map slimC).map cKey = l.map cKey := by
  rw [List.map_map]
  rfl

/-- The conjunction of the three per-module no-repeat invariants over one
rater's trace state. -/
def TraceInv (st : TraceState) : Prop :=
  ModInv st.seenA st.histA (st.sess.planA.map keyA) st.sess.idxA ∧
  ModInv st.seenB st.histB st.sess.planB st.sess.idxB ∧
  ModInv st.seenC st.histC (st.sess.planC.map cKey) st.sess.idxC

/-- Every valid event preserves the no-repeat invariant. -/
lemma stepOp_preserves (st : TraceState) (op : Op) (hv : ValidOp op)
    (h : TraceInv st) : TraceInv (stepOp st op) := by
  obtain ⟨hA, hB, hC⟩ := h
  cases op with
  | draw perProv seeds tgt sigA sigB sigC =>
    obtain ⟨hpa, hpb, hpc, hna, hnb, hnc⟩ := hv
    dsimp only [stepOp, samplePlan, TraceInv]
    refine ⟨?_, ?_, ?_⟩
    · rw [planA_keys]
      refine modInv_after_draw keyA _ sigA hpa st.seenA _ st.histA hA.1
        hA.2.1 ?_ ?_
      · exact hna.sublist ((List.filter_sublist _).map keyA)
      · intro m hm
        exact of_decide_eq_true (List.mem_filter.mp hm).2
    · refine modInv_after_draw_keys _ sigB hpb st.seenB _ st.histB hB.1
        hB.2.1 ?_ ?_
      · exact hnb.sublist (List.filter_sublist _)
      · intro k hk
        exact of_decide_eq_true (List.mem_filter.mp hk).2
    · rw [planC_keys]
      refine modInv_after_draw cKey _ sigC hpc st.seenC _ st.histC hC.1
        hC.2.1 ?_ ?_
      · exact hnc.sublist ((List.filter_sublist _).map cKey)
      · intro e he
        exact of_decide_eq_true (List.mem_filter.mp he).2
  | submitA =>
    rcases hget : st.sess.planA.get? st.sess.idxA with _ | item
    · simpa only [stepOp, hget] using ⟨hA, hB, hC⟩
    · refine ⟨?_, ?_, ?_⟩ <;> simp only [stepOp, hget]
      · refine modInv_submit hA ?_
        rw [List.get?_eq_getElem?] at hget ⊢
        simp [hget]
      · exact hB
      · exact hC
  | submitOkB =>
    rcases hget : st.sess.planB.get? st.sess.idxB with _ | k
    · simpa only [stepOp, hget] using ⟨hA, hB, hC⟩
    · refine ⟨?_, ?_, ?_⟩ <;> simp only [stepOp, hget]
      · exact hA
      · exact modInv_submit hB hget
      · exact hC
  | submitC =>
    rcases hget : st.sess.planC.get? st.sess.idxC with _ | e
    · simpa only [stepOp, hget] using ⟨hA, hB, hC⟩
    · refine ⟨?_, ?_, ?_⟩ <;> simp only [stepOp, hget]
      · exact hA
      · exact hB
      · refine modInv_submit hC ?_
        rw [List.get?_eq_getElem?] at hget ⊢
        simp [hget]

/-- The fresh-rater state satisfies the invariant. -/
lemma initTrace_inv : TraceInv initTrace := by
  refine ⟨?_, ?_, ?_⟩ <;>
    exact ⟨List.nodup_nil, by simp [initTrace], by simp [initTrace],
      by simp [initTrace]⟩

/-- Folding valid events preserves the invariant. -/
lemma foldl_stepOp_inv :
    ∀ (ops : List Op) (st : TraceState), TraceInv st →
      (∀ op ∈ ops, ValidOp op) → TraceInv (ops.foldl stepOp st) := by
  intro ops
  induction ops with
  | nil => intro st h _; simpa using h
  | cons op rest ih =>
    intro st h hv
    rw [List.foldl_cons]
    exact ih _ (stepOp_preserves st op (hv op (List.mem_cons_self _ _)) h)
      (fun o ho => hv o (List.mem_cons_of_mem _ ho))

/-- Claim C2 as amended: over any sequence of plan draws (against freshly
built pools) and accepted submissions in one rater's lifetime with no seen
clearing, no task key is served twice for any module — *provided* each draw's
shuffles are genuine permutations and the drawn-from pools have
duplicate-free candidate key lists, in particular no two Module A pool rows
share a `(provider, category, prompt, seed)` key (the B and C pools get
duplicate-free keys from construction; the flat A pool is never deduplicated,
which is what the counterexample exploits). -/
theorem c2_no_repeat_amended :
    ∀ ops : List Op, (∀ op ∈ ops, ValidOp op) →
      (runOps ops).histA.Nodup ∧ (runOps ops).histB.Nodup ∧
      (runOps ops).histC.Nodup := by
  intro ops hv
  have h := foldl_stepOp_inv ops initTrace initTrace_inv hv
  exact ⟨h.1.1, h.2.1.1, h.2.2.1⟩

/-- A trace exercising all three modules once. -/
def c2Ops : List Op :=
  [Op.draw [("p1", [rowP1]), ("p2", [rowP2])] [11]
     { tA := 24, tB := 12, tC := 12 } id id id,
   Op.submitA, Op.submitOkB, Op.submitC]

/-- Witness for `c2_no_repeat_amended` at a concrete valid trace. -/
theorem c2_no_repeat_amended_witness :
    (runOps c2Ops).histA.Nodup ∧ (runOps c2Ops).histB.Nodup ∧
    (runOps c2Ops).histC.Nodup := by
  refine c2_no_repeat_amended c2Ops ?_
  intro op hop
  simp only [c2Ops, List.mem_cons, List.not_mem_nil, or_false] at hop
  rcases hop with rfl | rfl | rfl | rfl
  · exact ⟨fun l => List.Perm.refl l, fun l => List.Perm.refl l,
      fun l => List.Perm.refl l, by decide, by decide, by decide⟩
  · trivial
  · trivial
  · trivial

/-- A trace drawing from a pool whose flat Module A list contains two rows
with the same key (a duplicate manifest entry), then submitting both. -/
def c2CEOps : List Op :=
  [Op.draw [("p1", [rowP1, rowP1Late])] [11]
     { tA := 24, tB := 12, tC := 12 } id id id,
   Op.submitA, Op.submitA]

/-- Claim C2 as stated is violated by the code: when a provider's manifest
yields two rows with the same `(provider, category, prompt, seed)` key, the
flat Module A pool keeps both (it is never deduplicated), `random.sample`
without replacement can put both in one frozen plan, and both are then served
and accepted — the key is served twice with no seen clearing, because the
unseen filter runs only at draw time and the second entry is already frozen
in the plan. -/
theorem c2_no_repeat_counterexample :
    (runOps c2CEOps).histA = [keyA rowP1, keyA rowP1] ∧
    ¬ (runOps c2CEOps).histA.Nodup := by
  refine ⟨by decide, by decide⟩
